import Mathlib

/-!
Verification of the tic-tac-toe game engine in
`src/frontend_tic_tac_toe/src/App.js`.

The board is the JS array `squares` of 9 cells, each `"X"`, `"O"` or
`null`; we model a cell as `Option Mark`.  JS array reads out of range
yield `undefined`, modelled as `none`; JS array writes out of range
extend the array (holes read as `undefined`), modelled by `setSquare`.
-/

namespace TicTacToe

inductive Mark : Type
  | X : Mark
  | O : Mark
deriving DecidableEq, Repr, Fintype

abbrev Cell := Option Mark

abbrev Board := List Cell

/-- Constant `WIN_LINES` from App.js: the 8 winning index triples, in source order:
3 rows, then 3 columns, then 2 diagonals. -/
def WIN_LINES : List (Nat × Nat × Nat) :=
  [(0, 1, 2), (3, 4, 5), (6, 7, 8),
   (0, 3, 6), (1, 4, 7), (2, 5, 8),
   (0, 4, 8), (2, 4, 6)]

/-- The loop body of `calculateWinner`: scan a list of lines, return the
first line whose three cells hold the same non-empty mark.  The JS guard is
`squares[a] && squares[a] === squares[b] && squares[a] === squares[c]`;
`squares[i]` out of range is `undefined` (`none`). -/
def calcAux (squares : Board) : List (Nat × Nat × Nat) → Option Mark × Option (Nat × Nat × Nat)
  | [] => (none, none)
  | (a, b, c) :: rest =>
    match squares.getD a none with
    | some m =>
      if squares.getD b none = some m ∧ squares.getD c none = some m then
        (some m, some (a, b, c))
      else calcAux squares rest
    | none => calcAux squares rest

/-- Function `calculateWinner` from App.js. -/
def calculateWinner (squares : Board) : Option Mark × Option (Nat × Nat × Nat) :=
  calcAux squares WIN_LINES

/-- Function `isBoardFull` from App.js: `squares.every((v) => v !== null)`. -/
def isBoardFull (squares : Board) : Bool :=
  squares.all (fun v => v.isSome)

/-- The derived `draw` flag from App.js: `!winner && isBoardFull(squares)`. -/
def draw (squares : Board) : Bool :=
  (calculateWinner squares).1.isNone && isBoardFull squares

/-- The derived `gameOver` flag from App.js: `Boolean(winner) || draw`. -/
def gameOver (squares : Board) : Bool :=
  (calculateWinner squares).1.isSome || draw squares

/-- Component state of `App`: `squares`, `xIsNext`, and the `scores`
object `{ X, O, draws }`. -/
structure GameState : Type where
  squares : Board
  xIsNext : Bool
  scoreX : Nat
  scoreO : Nat
  draws : Nat
deriving DecidableEq, Repr

/-- Initial state: `Array(9).fill(null)`, `xIsNext = true`, scores zero. -/
def initState : GameState :=
  { squares := List.replicate 9 none, xIsNext := true,
    scoreX := 0, scoreO := 0, draws := 0 }

/-- Derived `currentPlayer` from App.js: `xIsNext ? "X" : "O"`. -/
def currentPlayer (st : GameState) : Mark :=
  if st.xIsNext then Mark.X else Mark.O

/-- JS array write `next[index] = v`: in range it overwrites; past the end
it extends the array, the skipped positions reading as `undefined`. -/
def setSquare (l : Board) (i : Nat) (v : Cell) : Board :=
  if i < l.length then l.set i v
  else l ++ List.replicate (i - l.length) none ++ [v]

/-- Function `handleSquareClickWithScore` from App.js (the handler bound to
`onSquareClick`): reject when `gameOver` or the clicked cell is truthy;
otherwise write the current mark, score the resulting board, and flip
`xIsNext`. -/
def handleSquareClickWithScore (st : GameState) (index : Nat) : GameState :=
  if gameOver st.squares then st
  else if (st.squares.getD index none).isSome then st
  else
    let next := setSquare st.squares index (some (if st.xIsNext then Mark.X else Mark.O))
    let st1 :=
      match (calculateWinner next).1 with
      | some Mark.X => { st with scoreX := st.scoreX + 1 }
      | some Mark.O => { st with scoreO := st.scoreO + 1 }
      | none => if isBoardFull next then { st with draws := st.draws + 1 } else st
    { st1 with squares := next, xIsNext := !st.xIsNext }

/-- Function `restartGame` from App.js: clear the board, set `xIsNext` to true, and
zero the scores exactly when `keepScores` is false. -/
def restartGame (st : GameState) (keepScores : Bool) : GameState :=
  let st1 := { st with squares := List.replicate 9 none, xIsNext := true }
  if keepScores then st1 else { st1 with scoreX := 0, scoreO := 0, draws := 0 }

/-- Apply a sequence of clicks in order. -/
def playMoves (st : GameState) (ms : List Nat) : GameState :=
  ms.foldl handleSquareClickWithScore st

/-- Predicate `winsLine b t m`: all three cells of triple `t` read as mark `m`
(the success condition of one iteration of `calculateWinner`). -/
def winsLine (b : Board) (t : Nat × Nat × Nat) (m : Mark) : Prop :=
  b.getD t.1 none = some m ∧ b.getD t.2.1 none = some m ∧ b.getD t.2.2 none = some m

instance (b : Board) (t : Nat × Nat × Nat) (m : Mark) : Decidable (winsLine b t m) := by
  unfold winsLine; infer_instance

/-- Predicate `lineWon b t`: some mark wins triple `t` on board `b`. -/
def lineWon (b : Board) (t : Nat × Nat × Nat) : Prop :=
  ∃ m, winsLine b t m

instance (b : Board) (t : Nat × Nat × Nat) : Decidable (lineWon b t) := by
  unfold lineWon; infer_instance

/-- States reachable from the initial state by clicks on indices 0..8 and
restarts. -/
inductive Reachable : GameState → Prop
  | init : Reachable initState
  | move (st : GameState) (i : Nat) : Reachable st → i ≤ 8 →
      Reachable (handleSquareClickWithScore st i)
  | reset (st : GameState) (b : Bool) : Reachable st →
      Reachable (restartGame st b)

/-- The board after an accepted click: `next` in App.js, the current mark
written at `index`. -/
def nextBoard (st : GameState) (i : Nat) : Board :=
  setSquare st.squares i (some (if st.xIsNext then Mark.X else Mark.O))

/-- Number of board cells holding mark `m`. -/
def countMark (m : Mark) (b : Board) : Nat :=
  b.countP (fun c => decide (c = some m))

/-- A board on which both the first row and the second row are three `X`s:
two winning lines at once. -/
def twoWinBoard : Board :=
  [some Mark.X, some Mark.X, some Mark.X, some Mark.X, some Mark.X, some Mark.X,
   none, none, none]

/-- The top row holds three `X`s, the second row two `O`s. -/
def topRowBoard : Board :=
  [some Mark.X, some Mark.X, some Mark.X, some Mark.O, some Mark.O, none,
   none, none, none]

/-- The final board of the draw scenario `[0,1,2,4,3,5,7,6,8]`: full, no
three-in-a-row. -/
def drawBoard : Board :=
  [some Mark.X, some Mark.O, some Mark.X, some Mark.X, some Mark.O, some Mark.O,
   some Mark.O, some Mark.X, some Mark.X]

/-- A finished game: `X` already won the top row. -/
def wonState : GameState :=
  { squares := topRowBoard, xIsNext := false, scoreX := 1, scoreO := 0, draws := 0 }

/-- The state after the single opening click on cell 0. -/
def oneMoveState : GameState := handleSquareClickWithScore initState 0

/-- One move away from a top-row win for `X`. -/
def preWinState : GameState :=
  { squares := [some Mark.X, some Mark.X, none, some Mark.O, some Mark.O, none,
      none, none, none],
    xIsNext := true, scoreX := 0, scoreO := 0, draws := 0 }

/-! ### Characterization of `calculateWinner` -/

/-- The scan `calcAux` either finds no winning line and returns
`(none, none)`, or returns the winning mark and line of the first
winning triple in the list. -/
theorem calcAux_spec (sq : Board) (ls : List (Nat × Nat × Nat)) :
    (calcAux sq ls = (none, none) ∧ ∀ t ∈ ls, ¬ lineWon sq t) ∨
    (∃ m t i, calcAux sq ls = (some m, some t) ∧ ls.get? i = some t ∧ winsLine sq t m ∧
      ∀ j, j < i → ∀ u, ls.get? j = some u → ¬ lineWon sq u) := by
  induction ls with
  | nil => exact Or.inl ⟨rfl, by simp⟩
  | cons hd tl ih =>
    obtain ⟨a, b, c⟩ := hd
    cases hA : sq.getD a none with
    | some m =>
      by_cases hbc : sq.getD b none = some m ∧ sq.getD c none = some m
      · refine Or.inr ⟨m, (a, b, c), 0, ?_, rfl, ⟨hA, hbc.1, hbc.2⟩, ?_⟩
        · simp only [calcAux, hA]
          rw [if_pos hbc]
        · intro j hj
          exact absurd hj (Nat.not_lt_zero j)
      · have hrec : calcAux sq ((a, b, c) :: tl) = calcAux sq tl := by
          simp only [calcAux, hA]
          rw [if_neg hbc]
        have hhd : ¬ lineWon sq (a, b, c) := by
          rintro ⟨m', h1, h2, h3⟩
          simp only [winsLine] at h1 h2 h3
          rw [hA] at h1
          obtain rfl : m = m' := Option.some.inj h1
          exact hbc ⟨h2, h3⟩
        rcases ih with ⟨h1, h2⟩ | ⟨m', t, i, h1, h2, h3, h4⟩
        · refine Or.inl ⟨hrec.trans h1, ?_⟩
          intro t ht
          rcases List.mem_cons.mp ht with rfl | ht'
          · exact hhd
          · exact h2 t ht'
        · refine Or.inr ⟨m', t, i + 1, hrec.trans h1, by simpa using h2, h3, ?_⟩
          intro j hj u hu
          cases j with
          | zero =>
            obtain rfl : (a, b, c) = u := by simpa using hu
            exact hhd
          | succ k => exact h4 k (by omega) u (by simpa using hu)
    | none =>
      have hrec : calcAux sq ((a, b, c) :: tl) = calcAux sq tl := by
        simp only [calcAux, hA]
      have hhd : ¬ lineWon sq (a, b, c) := by
        rintro ⟨m', h1, _, _⟩
        simp only [winsLine] at h1
        rw [hA] at h1
        exact Option.noConfusion h1
      rcases ih with ⟨h1, h2⟩ | ⟨m', t, i, h1, h2, h3, h4⟩
      · refine Or.inl ⟨hrec.trans h1, ?_⟩
        intro t ht
        rcases List.mem_cons.mp ht with rfl | ht'
        · exact hhd
        · exact h2 t ht'
      · refine Or.inr ⟨m', t, i + 1, hrec.trans h1, by simpa using h2, h3, ?_⟩
        intro j hj u hu
        cases j with
        | zero =>
          obtain rfl : (a, b, c) = u := by simpa using hu
          exact hhd
        | succ k => exact h4 k (by omega) u (by simpa using hu)

/-- C1: `calculateWinner` checks the 8 triples of `WIN_LINES` in their fixed
enumeration order and returns the mark and line of the first triple whose
three cells hold the same non-empty mark; if no triple qualifies it returns
`(none, none)`.  On a board with several winning lines the returned one is
the first in that order (all strictly earlier triples are non-winning). -/
theorem calculateWinner_first_match (sq : Board) :
    (calculateWinner sq = (none, none) ∧ ∀ t ∈ WIN_LINES, ¬ lineWon sq t) ∨
    (∃ m t i, calculateWinner sq = (some m, some t) ∧ WIN_LINES.get? i = some t ∧
      winsLine sq t m ∧ ∀ j, j < i → ∀ u, WIN_LINES.get? j = some u → ¬ lineWon sq u) :=
  calcAux_spec sq WIN_LINES

/-- C1 witness: on `twoWinBoard`, whose rows 1 and 2 both win, the theorem
yields the first matching triple. -/
theorem calculateWinner_first_match_witness :
    ∃ m t i, calculateWinner twoWinBoard = (some m, some t) ∧ WIN_LINES.get? i = some t ∧
      winsLine twoWinBoard t m ∧
      ∀ j, j < i → ∀ u, WIN_LINES.get? j = some u → ¬ lineWon twoWinBoard u :=
  (calculateWinner_first_match twoWinBoard).resolve_left (by decide)

/-- C10: the result of `calculateWinner` is internally consistent: the winner
is `none` exactly when the returned line is `none`, and when both are present
the line is one of the 8 triples of `WIN_LINES` and its three cells all hold
the mark of the returned winner. -/
theorem calculateWinner_consistent (sq : Board) :
    ((calculateWinner sq).1 = none ↔ (calculateWinner sq).2 = none) ∧
    (∀ m t, calculateWinner sq = (some m, some t) →
      t ∈ WIN_LINES ∧ sq.getD t.1 none = some m ∧ sq.getD t.2.1 none = some m ∧
        sq.getD t.2.2 none = some m) := by
  rcases calcAux_spec sq WIN_LINES with ⟨h1, _⟩ | ⟨m, t, i, h1, h2, h3, _⟩
  · have h1' : calculateWinner sq = (none, none) := h1
    constructor
    · rw [h1']
      simp
    · intro m t hmt
      rw [h1'] at hmt
      simp at hmt
  · have h1' : calculateWinner sq = (some m, some t) := h1
    constructor
    · rw [h1']
      simp
    · intro m' t' hmt
      rw [h1'] at hmt
      injection hmt with hm ht
      obtain rfl : m = m' := Option.some.inj hm
      obtain rfl : t = t' := Option.some.inj ht
      simp only [winsLine] at h3
      exact ⟨List.get?_mem h2, h3.1, h3.2.1, h3.2.2⟩

/-- C10 witness. -/
theorem calculateWinner_consistent_witness :
    (0, 1, 2) ∈ WIN_LINES ∧ topRowBoard.getD 0 none = some Mark.X ∧
      topRowBoard.getD 1 none = some Mark.X ∧ topRowBoard.getD 2 none = some Mark.X :=
  (calculateWinner_consistent topRowBoard).2 Mark.X (0, 1, 2) (by decide)

/-! ### Derived status -/

/-- On a 9-cell board, `isBoardFull` holds exactly when every index below 9
reads a non-empty cell. -/
theorem isBoardFull_iff (sq : Board) (h : sq.length = 9) :
    isBoardFull sq = true ↔ ∀ i, i < 9 → sq.getD i none ≠ none := by
  unfold isBoardFull
  rw [List.all_eq_true]
  constructor
  · intro hall i hi
    have hlt : i < sq.length := h ▸ hi
    rw [List.getD_eq_getElem sq none hlt, ← Option.isSome_iff_ne_none]
    exact hall _ (List.getElem_mem hlt)
  · intro hall v hv
    rw [Option.isSome_iff_ne_none]
    obtain ⟨i, hlt, rfl⟩ := List.mem_iff_getElem.mp hv
    have hi := hall i (h ▸ hlt)
    rwa [List.getD_eq_getElem sq none hlt] at hi

/-- C2: on any 9-cell board, the derived `draw` flag holds iff there is no
winner and all 9 cells are non-empty, and the derived `gameOver` flag holds
iff there is a winner or the board is a draw. -/
theorem derived_status_spec (sq : Board) (h : sq.length = 9) :
    (draw sq = true ↔ ((calculateWinner sq).1 = none ∧ ∀ i, i < 9 → sq.getD i none ≠ none)) ∧
    (gameOver sq = true ↔ ((calculateWinner sq).1 ≠ none ∨ draw sq = true)) := by
  constructor
  · unfold draw
    rw [Bool.and_eq_true, isBoardFull_iff sq h]
    constructor
    · rintro ⟨h1, h2⟩
      exact ⟨Option.isNone_iff_eq_none.mp h1, h2⟩
    · rintro ⟨h1, h2⟩
      exact ⟨Option.isNone_iff_eq_none.mpr h1, h2⟩
  · unfold gameOver
    rw [Bool.or_eq_true]
    constructor
    · rintro (h1 | h1)
      · exact Or.inl (Option.isSome_iff_ne_none.mp h1)
      · exact Or.inr h1
    · rintro (h1 | h1)
      · exact Or.inl (Option.isSome_iff_ne_none.mpr h1)
      · exact Or.inr h1

/-- C2 witness: the derived status of a full no-winner board. -/
theorem derived_status_spec_witness :
    draw drawBoard = true ∧ gameOver drawBoard = true := by
  have h := derived_status_spec drawBoard rfl
  have hd : draw drawBoard = true := h.1.mpr ⟨by decide, by decide⟩
  exact ⟨hd, h.2.mpr (Or.inr hd)⟩

/-! ### Rejected moves -/

/-- A click while the game is over leaves the state unchanged. -/
theorem click_of_gameOver (st : GameState) (i : Nat) (h : gameOver st.squares = true) :
    handleSquareClickWithScore st i = st := by
  unfold handleSquareClickWithScore
  rw [if_pos h]

/-- A click on an occupied (truthy) cell leaves the state unchanged. -/
theorem click_of_occupied (st : GameState) (i : Nat)
    (h : (st.squares.getD i none).isSome = true) :
    handleSquareClickWithScore st i = st := by
  unfold handleSquareClickWithScore
  by_cases hg : gameOver st.squares = true
  · rw [if_pos hg]
  · rw [if_neg hg, if_pos h]

/-- Normal form of an accepted click: the mark is written, the turn flips,
and exactly the counter selected by the status of the resulting board grows by 1. -/
theorem click_accepted (st : GameState) (i : Nat)
    (hover : gameOver st.squares = false) (hempty : st.squares.getD i none = none) :
    handleSquareClickWithScore st i =
      { squares := nextBoard st i, xIsNext := !st.xIsNext,
        scoreX := st.scoreX +
          (if (calculateWinner (nextBoard st i)).1 = some Mark.X then 1 else 0),
        scoreO := st.scoreO +
          (if (calculateWinner (nextBoard st i)).1 = some Mark.O then 1 else 0),
        draws := st.draws +
          (if (calculateWinner (nextBoard st i)).1 = none ∧ isBoardFull (nextBoard st i) = true
            then 1 else 0) } := by
  have h1 : ¬ (gameOver st.squares = true) := by
    rw [hover]
    simp
  have h2 : ¬ ((st.squares.getD i none).isSome = true) := by
    rw [hempty]
    simp
  unfold handleSquareClickWithScore
  rw [if_neg h1, if_neg h2]
  simp only [nextBoard]
  split
  all_goals
    split
    · next heq => simp [heq]
    · next heq => simp [heq]
    · next heq =>
      split
      · next hf => simp [heq, hf]
      · next hf => simp [heq, hf]

/-- C4: moves after game over, and moves onto an occupied in-range cell, are
silent no-ops: the whole state (board, mark, all three score counters) is
unchanged and no error is possible. -/
theorem applyMove_rejected (st : GameState) (i : Nat) :
    (gameOver st.squares = true → handleSquareClickWithScore st i = st) ∧
    (i ≤ 8 → (st.squares.getD i none).isSome = true → handleSquareClickWithScore st i = st) :=
  ⟨fun h => click_of_gameOver st i h, fun _ h => click_of_occupied st i h⟩

/-- C4 witness: a click after a win and a click on an occupied cell. -/
theorem applyMove_rejected_witness :
    handleSquareClickWithScore wonState 5 = wonState ∧
    handleSquareClickWithScore oneMoveState 0 = oneMoveState :=
  ⟨(applyMove_rejected wonState 5).1 (by decide),
   (applyMove_rejected oneMoveState 0).2 (by decide) (by decide)⟩

/-! ### Turn alternation -/

/-- C6: an accepted move flips `xIsNext`, so the next current player differs
from the mark just placed — unconditionally, even on a terminal move; a
rejected move leaves the turn unchanged. -/
theorem turn_alternation (st : GameState) (i : Nat) :
    (gameOver st.squares = false → st.squares.getD i none = none →
      (handleSquareClickWithScore st i).xIsNext = !st.xIsNext ∧
      currentPlayer (handleSquareClickWithScore st i) ≠ currentPlayer st) ∧
    ((gameOver st.squares = true ∨ (st.squares.getD i none).isSome = true) →
      (handleSquareClickWithScore st i).xIsNext = st.xIsNext) := by
  constructor
  · intro hover hempty
    have hx : (handleSquareClickWithScore st i).xIsNext = !st.xIsNext := by
      rw [click_accepted st i hover hempty]
    refine ⟨hx, ?_⟩
    unfold currentPlayer
    rw [hx]
    cases st.xIsNext <;> simp
  · rintro (h | h)
    · rw [click_of_gameOver st i h]
    · rw [click_of_occupied st i h]

/-- C6 witness: the opening move flips the turn; a rejected move does not. -/
theorem turn_alternation_witness :
    (handleSquareClickWithScore initState 0).xIsNext = !initState.xIsNext ∧
    (handleSquareClickWithScore wonState 5).xIsNext = wonState.xIsNext :=
  ⟨((turn_alternation initState 0).1 (by decide) (by decide)).1,
   (turn_alternation wonState 5).2 (Or.inl (by decide))⟩

/-! ### Restart -/

/-- C7: `restartGame` always succeeds, clears all 9 cells to empty, makes
`X` (MARK_A) the current player, zeroes all three score counters when
`keepScores` is false, and leaves all three untouched when it is true. -/
theorem restartGame_spec (st : GameState) (b : Bool) :
    (restartGame st b).squares = List.replicate 9 none ∧
    (restartGame st b).xIsNext = true ∧
    currentPlayer (restartGame st b) = Mark.X ∧
    (restartGame st b).scoreX = (if b then st.scoreX else 0) ∧
    (restartGame st b).scoreO = (if b then st.scoreO else 0) ∧
    (restartGame st b).draws = (if b then st.draws else 0) := by
  cases b <;> simp [restartGame, currentPlayer]

/-! ### Accepted moves and scoring -/

/-- Once the game is over, any sequence of further clicks is a no-op. -/
theorem playMoves_gameOver (st : GameState) (h : gameOver st.squares = true) :
    ∀ ms : List Nat, playMoves st ms = st
  | [] => rfl
  | a :: tl => by
    show playMoves (handleSquareClickWithScore st a) tl = st
    rw [click_of_gameOver st a h]
    exact playMoves_gameOver st h tl

/-- Reading back the cell just written by `setSquare`. -/
theorem getD_setSquare_self (l : Board) (i : Nat) (v : Cell) :
    (setSquare l i v).getD i none = v := by
  unfold setSquare
  split
  · next h =>
    rw [List.getD_eq_getElem _ _ (by simpa using h)]
    simp
  · next h =>
    have hlen : (l ++ List.replicate (i - l.length) none).length = i := by
      simp only [List.length_append, List.length_replicate]
      omega
    rw [List.getD_append_right _ _ _ _ (by omega), hlen, Nat.sub_self]
    rfl

/-- C3: an accepted move (game not over, target cell empty) writes the
current mark at the clicked cell and scores the **resulting** board: the
counter of the winner (and only it) grows by 1 if the resulting board has a
winner, the draw counter (and only it) grows by 1 if the resulting board is
full with no winner, and otherwise no counter changes; afterwards, if that
move ended the game, any sequence of further clicks changes nothing. -/
theorem applyMove_score_spec (st : GameState) (i : Nat)
    (hover : gameOver st.squares = false) (hempty : st.squares.getD i none = none) :
    (handleSquareClickWithScore st i).squares = nextBoard st i ∧
    (handleSquareClickWithScore st i).squares.getD i none = some (currentPlayer st) ∧
    ((calculateWinner (nextBoard st i)).1 = some Mark.X →
      (handleSquareClickWithScore st i).scoreX = st.scoreX + 1 ∧
      (handleSquareClickWithScore st i).scoreO = st.scoreO ∧
      (handleSquareClickWithScore st i).draws = st.draws) ∧
    ((calculateWinner (nextBoard st i)).1 = some Mark.O →
      (handleSquareClickWithScore st i).scoreO = st.scoreO + 1 ∧
      (handleSquareClickWithScore st i).scoreX = st.scoreX ∧
      (handleSquareClickWithScore st i).draws = st.draws) ∧
    ((calculateWinner (nextBoard st i)).1 = none → isBoardFull (nextBoard st i) = true →
      (handleSquareClickWithScore st i).draws = st.draws + 1 ∧
      (handleSquareClickWithScore st i).scoreX = st.scoreX ∧
      (handleSquareClickWithScore st i).scoreO = st.scoreO) ∧
    ((calculateWinner (nextBoard st i)).1 = none → isBoardFull (nextBoard st i) = false →
      (handleSquareClickWithScore st i).scoreX = st.scoreX ∧
      (handleSquareClickWithScore st i).scoreO = st.scoreO ∧
      (handleSquareClickWithScore st i).draws = st.draws) ∧
    (∀ ms : List Nat, gameOver (handleSquareClickWithScore st i).squares = true →
      playMoves (handleSquareClickWithScore st i) ms = handleSquareClickWithScore st i) := by
  have hc := click_accepted st i hover hempty
  refine ⟨?_, ?_, ?_, ?_, ?_, ?_, ?_⟩
  · rw [hc]
  · rw [hc]
    show (nextBoard st i).getD i none = _
    unfold nextBoard currentPlayer
    rw [getD_setSquare_self]
  · intro hw
    rw [hc]
    simp [hw]
  · intro hw
    rw [hc]
    simp [hw]
  · intro hw hf
    rw [hc]
    simp [hw, hf]
  · intro hw hf
    rw [hc]
    simp [hw, hf]
  · intro ms hdone
    exact playMoves_gameOver _ hdone ms

/-- C3 witness: the winning click bumps exactly the counter of the winner. -/
theorem applyMove_score_spec_witness :
    (handleSquareClickWithScore preWinState 2).scoreX = preWinState.scoreX + 1 ∧
    (handleSquareClickWithScore preWinState 2).scoreO = preWinState.scoreO ∧
    (handleSquareClickWithScore preWinState 2).draws = preWinState.draws :=
  (applyMove_score_spec preWinState 2 (by decide) (by decide)).2.2.1 (by decide)

/-! ### Concrete winning scenario -/

/-- C8: from the initial state, clicking cells 0, 3, 1, 4, 2 gives `X` the
top row `[0,1,2]` as winning line, with `score[X] = 1` and the other two
counters still zero. -/
theorem scenario_top_row_win :
    calculateWinner (playMoves initState [0, 3, 1, 4, 2]).squares
        = (some Mark.X, some (0, 1, 2)) ∧
    (playMoves initState [0, 3, 1, 4, 2]).scoreX = 1 ∧
    (playMoves initState [0, 3, 1, 4, 2]).scoreO = 0 ∧
    (playMoves initState [0, 3, 1, 4, 2]).draws = 0 := by
  decide

/-! ### Out-of-range moves -/

/-- The scan `calcAux` only depends on the cells the triples read. -/
theorem calcAux_congr (sq1 sq2 : Board) (ls : List (Nat × Nat × Nat))
    (h : ∀ t ∈ ls, sq1.getD t.1 none = sq2.getD t.1 none ∧
      sq1.getD t.2.1 none = sq2.getD t.2.1 none ∧
      sq1.getD t.2.2 none = sq2.getD t.2.2 none) :
    calcAux sq1 ls = calcAux sq2 ls := by
  induction ls with
  | nil => rfl
  | cons hd tl ih =>
    obtain ⟨a, b, c⟩ := hd
    obtain ⟨h1, h2, h3⟩ := h _ (List.mem_cons_self _ _)
    have htl := ih fun t ht => h t (List.mem_cons_of_mem _ ht)
    simp only [calcAux] at h1 h2 h3 ⊢
    rw [h1, h2, h3, htl]

/-- Appending cells past index 8 does not change the winner computation on a
9-cell board. -/
theorem calculateWinner_extend (sq r : Board) (h9 : sq.length = 9) :
    calculateWinner (sq ++ r) = calculateWinner sq := by
  have hb : ∀ t ∈ WIN_LINES, t.1 < 9 ∧ t.2.1 < 9 ∧ t.2.2 < 9 := by decide
  apply calcAux_congr
  intro t ht
  obtain ⟨hb1, hb2, hb3⟩ := hb t ht
  exact ⟨List.getD_append _ _ _ _ (by omega), List.getD_append _ _ _ _ (by omega),
    List.getD_append _ _ _ _ (by omega)⟩

/-- When the derived `gameOver` flag is false, the board has no winner and
is not full. -/
theorem gameOver_false_parts (sq : Board) (h : gameOver sq = false) :
    (calculateWinner sq).1 = none ∧ isBoardFull sq = false := by
  have h' := h
  unfold gameOver at h'
  rw [Bool.or_eq_false_iff] at h'
  obtain ⟨hw, hd⟩ := h'
  have hw' : (calculateWinner sq).1 = none := by
    cases hcw : (calculateWinner sq).1
    · rfl
    · rw [hcw] at hw
      simp at hw
  refine ⟨hw', ?_⟩
  unfold draw at hd
  rw [hw'] at hd
  simpa using hd

/-- C5 counterexample: at the initial state the out-of-range move 9 is not
rejected — the state changes (the turn flips and the board grows to 10
cells), so the claimed silent no-op fails. -/
theorem outOfRange_changes_state :
    ¬ handleSquareClickWithScore initState 9 = initState := by
  decide

/-- C5 amended: an out-of-range move (index ≥ 9 on the 9-cell board) is
range-unchecked: when the game is over the game-over guard still rejects it,
but when the game is in progress the move is accepted — the current mark is
written at that index (extending the board), the turn flips — while all
three score counters are left unchanged. -/
theorem applyMove_outOfRange (st : GameState) (i : Nat)
    (hlen : st.squares.length = 9) (hi : 9 ≤ i) :
    (gameOver st.squares = true → handleSquareClickWithScore st i = st) ∧
    (gameOver st.squares = false →
      (handleSquareClickWithScore st i).squares =
        st.squares ++ List.replicate (i - 9) none ++
          [some (if st.xIsNext then Mark.X else Mark.O)] ∧
      (handleSquareClickWithScore st i).xIsNext = !st.xIsNext ∧
      (handleSquareClickWithScore st i).scoreX = st.scoreX ∧
      (handleSquareClickWithScore st i).scoreO = st.scoreO ∧
      (handleSquareClickWithScore st i).draws = st.draws) := by
  refine ⟨fun h => click_of_gameOver st i h, fun hover => ?_⟩
  have hempty : st.squares.getD i none = none := List.getD_eq_default _ _ (by omega)
  have hc := click_accepted st i hover hempty
  have hnb : nextBoard st i =
      st.squares ++ List.replicate (i - 9) none ++
        [some (if st.xIsNext then Mark.X else Mark.O)] := by
    unfold nextBoard setSquare
    rw [if_neg (by omega), hlen]
  obtain ⟨hwnone, hfull⟩ := gameOver_false_parts st.squares hover
  have hw1 : (calculateWinner (nextBoard st i)).1 = none := by
    rw [hnb, List.append_assoc, calculateWinner_extend st.squares _ hlen]
    exact hwnone
  have hfull2 : isBoardFull (nextBoard st i) = false := by
    rw [hnb, List.append_assoc]
    unfold isBoardFull at hfull ⊢
    rw [List.all_append, hfull]
    rfl
  rw [hc]
  exact ⟨hnb, rfl, by simp [hw1], by simp [hw1], by simp [hw1, hfull2]⟩

/-- C5 amended witness: the first out-of-range click flips the turn and
leaves every score counter unchanged. -/
theorem applyMove_outOfRange_witness :
    (handleSquareClickWithScore initState 9).xIsNext = !initState.xIsNext ∧
    (handleSquareClickWithScore initState 9).scoreX = initState.scoreX ∧
    (handleSquareClickWithScore initState 9).scoreO = initState.scoreO ∧
    (handleSquareClickWithScore initState 9).draws = initState.draws := by
  have h := (applyMove_outOfRange initState 9 (by decide) (by omega)).2 (by decide)
  exact ⟨h.2.1, h.2.2.1, h.2.2.2.1, h.2.2.2.2⟩

/-! ### Reachable-state invariant -/

/-- Overwriting an empty in-range cell adds the contribution of the new cell
to any count that ignores empty cells. -/
theorem countP_set_of_none (p : Cell → Bool) (v : Cell) (hp : p none = false) :
    ∀ (l : Board) (i : Nat), i < l.length → l.getD i none = none →
      (l.set i v).countP p = l.countP p + (if p v then 1 else 0) := by
  intro l
  induction l with
  | nil =>
    intro i hi _
    simp at hi
  | cons a tl ih =>
    intro i hi hnone
    cases i with
    | zero =>
      have ha : a = none := by simpa using hnone
      subst ha
      simp [List.countP_cons, hp]
    | succ k =>
      have hk : k < tl.length := by simpa using hi
      have hnone' : tl.getD k none = none := by simpa using hnone
      simp [List.countP_cons, ih k hk hnone']
      omega

/-- Writing a cell the predicate accepts into an empty slot raises the count
by one. -/
theorem countP_set_pos (p : Cell → Bool) (v : Cell) (hp : p none = false)
    (l : Board) (i : Nat) (hi : i < l.length) (hnone : l.getD i none = none)
    (hpv : p v = true) :
    (l.set i v).countP p = l.countP p + 1 := by
  rw [countP_set_of_none p v hp l i hi hnone, if_pos hpv]

/-- Writing a cell the predicate rejects into an empty slot keeps the count. -/
theorem countP_set_neg (p : Cell → Bool) (v : Cell) (hp : p none = false)
    (l : Board) (i : Nat) (hi : i < l.length) (hnone : l.getD i none = none)
    (hpv : p v = false) :
    (l.set i v).countP p = l.countP p := by
  rw [countP_set_of_none p v hp l i hi hnone, if_neg (by rw [hpv]; exact Bool.false_ne_true)]
  rfl

/-- Auxiliary invariant carried through the induction: the board keeps its
9 cells, and the turn flag tracks whether the two mark counts are equal. -/
theorem reachable_aux (st : GameState) (h : Reachable st) :
    st.squares.length = 9 ∧
    (if st.xIsNext then countMark Mark.X st.squares = countMark Mark.O st.squares
      else countMark Mark.X st.squares = countMark Mark.O st.squares + 1) := by
  induction h with
  | init => exact ⟨rfl, by decide⟩
  | move st i hst hi ih =>
    by_cases hg : gameOver st.squares = true
    · rw [click_of_gameOver st i hg]
      exact ih
    · by_cases ho : (st.squares.getD i none).isSome = true
      · rw [click_of_occupied st i ho]
        exact ih
      · have hover : gameOver st.squares = false := Bool.not_eq_true _ ▸ hg
        have hempty : st.squares.getD i none = none := by
          cases he : st.squares.getD i none
          · rfl
          · rw [he] at ho
            simp at ho
        obtain ⟨hlen, hcnt⟩ := ih
        have hilt : i < st.squares.length := by omega
        have hset : nextBoard st i =
            st.squares.set i (some (if st.xIsNext then Mark.X else Mark.O)) := by
          unfold nextBoard setSquare
          rw [if_pos hilt]
        rw [click_accepted st i hover hempty]
        refine ⟨by rw [hset]; simp [hlen], ?_⟩
        simp only [countMark] at hcnt ⊢
        cases hx : st.xIsNext
        · rw [hx, if_neg Bool.false_ne_true] at hcnt
          rw [hx] at hset
          rw [if_neg Bool.false_ne_true] at hset
          rw [show (!false) = true from rfl, if_pos rfl, hset]
          rw [countP_set_neg (fun c => decide (c = some Mark.X)) (some Mark.O)
              rfl st.squares i hilt hempty rfl,
            countP_set_pos (fun c => decide (c = some Mark.O)) (some Mark.O)
              rfl st.squares i hilt hempty rfl]
          exact hcnt
        · rw [hx, if_pos rfl] at hcnt
          rw [hx] at hset
          rw [if_pos rfl] at hset
          rw [show (!true) = false from rfl, if_neg Bool.false_ne_true, hset]
          rw [countP_set_pos (fun c => decide (c = some Mark.X)) (some Mark.X)
              rfl st.squares i hilt hempty rfl,
            countP_set_neg (fun c => decide (c = some Mark.O)) (some Mark.X)
              rfl st.squares i hilt hempty rfl]
          exact congrArg (fun n => n + 1) hcnt
  | reset st b hst ih =>
    refine ⟨?_, ?_⟩
    · cases b <;> rfl
    · cases b <;> simp [restartGame, countMark]

/-- C9: in every state reachable by in-range clicks and restarts, each cell
is empty, `X` or `O`; the number of `X` cells minus the number of `O` cells
is 0 or 1; and `X` is to move exactly when the two counts are equal. -/
theorem reachable_invariant (st : GameState) (h : Reachable st) :
    (∀ c ∈ st.squares, c = none ∨ c = some Mark.X ∨ c = some Mark.O) ∧
    (countMark Mark.X st.squares = countMark Mark.O st.squares ∨
      countMark Mark.X st.squares = countMark Mark.O st.squares + 1) ∧
    (st.xIsNext = true ↔ countMark Mark.X st.squares = countMark Mark.O st.squares) := by
  obtain ⟨-, hcnt⟩ := reachable_aux st h
  refine ⟨?_, ?_, ?_⟩
  · intro c _
    cases c with
    | none => exact Or.inl rfl
    | some m =>
      cases m
      · exact Or.inr (Or.inl rfl)
      · exact Or.inr (Or.inr rfl)
  · cases hx : st.xIsNext
    · rw [hx, if_neg Bool.false_ne_true] at hcnt
      exact Or.inr hcnt
    · rw [hx, if_pos rfl] at hcnt
      exact Or.inl hcnt
  · cases hx : st.xIsNext
    · rw [hx, if_neg Bool.false_ne_true] at hcnt
      constructor
      · intro hfalse
        exact absurd hfalse Bool.false_ne_true
      · intro heq
        omega
    · rw [hx, if_pos rfl] at hcnt
      exact ⟨fun _ => hcnt, fun _ => rfl⟩

/-- C9 witness: the invariant at the state reached by the single click on
cell 0. -/
theorem reachable_invariant_witness :
    countMark Mark.X oneMoveState.squares = countMark Mark.O oneMoveState.squares ∨
    countMark Mark.X oneMoveState.squares = countMark Mark.O oneMoveState.squares + 1 :=
  (reachable_invariant oneMoveState
    (Reachable.move initState 0 Reachable.init (by omega))).2.1

end TicTacToe
